import Mathlib

namespace Memedeck

/- Shallow embedding of the memedeck hyperware gateway
   (src/memedeck/src/proxy.rs and src/memedeck/src/lib.rs).
   Strings are modelled as `List Char` at the core, with `String`
   wrappers mirroring the Rust function signatures.  The scanners that
   embed `Regex::replace_all` calls use an explicit fuel argument equal
   to the input length, so that every definition is executable and
   kernel-reducible; each scanning step consumes at least one character,
   hence fuel `l.length` always suffices. -/

/-- Lower-case a string (models case-insensitive HTTP header lookup). -/
def lowerStr (s : String) : String := String.mk (s.data.map Char.toLower)

/-- Model of `Regex::new(";.*")` + `replace_all(ct, "")` on a single-line
header value: everything from the first `;` on is removed. -/
def stripParams (s : String) : String := String.mk (s.data.takeWhile (fun c => c != ';'))

/-- Model of Rust `str::trim_matches('/')`: drop leading and trailing slashes. -/
def trimSlashes (l : List Char) : List Char :=
  ((l.dropWhile (fun c => c == '/')).reverse.dropWhile (fun c => c == '/')).reverse

/-- Model of Rust `str::trim_start_matches('/')`. -/
def dropLeadingSlashes (l : List Char) : List Char := l.dropWhile (fun c => c == '/')

/-- Boolean prefix test on character lists. -/
def leadsWith : List Char → List Char → Bool
  | [], _ => true
  | _ :: _, [] => false
  | a :: as, b :: bs => a == b && leadsWith as bs

/-- Boolean substring test on character lists. -/
def containsSub (pat : List Char) : List Char → Bool
  | [] => pat.isEmpty
  | l@(_ :: cs) => leadsWith pat l || containsSub pat cs

/-! The JS bundle rewriter, `replace_urls_js` (src/memedeck/src/proxy.rs:76-88):
    `Regex::new("_next/")` with every match replaced by
    `format!("memedeck:memedeck:memedeck-tester.os/{}", capture)`.
    Note that the `output` parameter is unused by the Rust code. -/

def jsTok : List Char := "_next/".data

def jsRepl : List Char := "memedeck:memedeck:memedeck-tester.os/_next/".data

def scanJsF : Nat → List Char → List Char
  | 0, l => l
  | _ + 1, [] => []
  | f + 1, c :: cs =>
    if leadsWith jsTok (c :: cs) then jsRepl ++ scanJsF f ((c :: cs).drop jsTok.length)
    else c :: scanJsF f cs

/-- Model of `replace_urls_js(input, output)`.  The Rust implementation
ignores `output` and splices in the hardcoded process path. -/
def replaceUrlsJs (input output : String) : String :=
  String.mk (scanJsF input.data.length input.data)

/-- Generic leftmost, non-overlapping replace-all of a literal pattern. -/
def replaceAllF (pat rep : List Char) : Nat → List Char → List Char
  | 0, l => l
  | _ + 1, [] => []
  | f + 1, c :: cs =>
    if leadsWith pat (c :: cs) then
      rep ++ replaceAllF pat rep f ((c :: cs).drop pat.length)
    else c :: replaceAllF pat rep f cs

/-- Modelled from the spec (amended form of the JS-rewrite sentence): every
literal occurrence of the asset-root token `_next/` is replaced by the fixed
string `memedeck:memedeck:memedeck-tester.os/_next/`, independent of the
derived rewrite prefix. -/
def jsFixedRewrite (s : String) : String :=
  String.mk (replaceAllF jsTok jsRepl s.data.length s.data)

/-! The CSS rewriter, `replace_urls_css` (src/memedeck/src/proxy.rs:63-74):
    `Regex::new("url\((\/[^)]+)\)")`, each match replaced by
    `format!("url(/{}{})", output, capture)`. -/

/-- Attempt to match the CSS url regex at the head of the input.  On success
returns the capture group minus its leading slash, and the rest of the input
after the closing parenthesis. -/
def matchCss : List Char → Option (List Char × List Char)
  | 'u' :: 'r' :: 'l' :: '(' :: '/' :: rest =>
    match rest.dropWhile (fun c => c != ')') with
    | ')' :: tail =>
      if rest.takeWhile (fun c => c != ')') = [] then none
      else some (rest.takeWhile (fun c => c != ')'), tail)
    | _ => none
  | _ => none

def scanCssF (p : List Char) : Nat → List Char → List Char
  | 0, l => l
  | _ + 1, [] => []
  | f + 1, c :: cs =>
    match matchCss (c :: cs) with
    | some (arg, tail) => ("url(/".data ++ p ++ ('/' :: arg) ++ [')']) ++ scanCssF p f tail
    | none => c :: scanCssF p f cs

/-- Model of `replace_urls_css(input, output)`. -/
def replaceUrlsCss (input output : String) : String :=
  String.mk (scanCssF output.data input.data.length input.data)

/-- True when the CSS url regex matches somewhere in the input, i.e. the
input contains a `url(` + `/` + at least one non-parenthesis character +
`)` reference. -/
def hasMatchCss : List Char → Bool
  | [] => false
  | l@(_ :: cs) => (matchCss l).isSome || hasMatchCss cs

/-! The inline-script file-path rewriter, `replace_files`
    (src/memedeck/src/proxy.rs:46-61):
    regex `\\\"\/[^"]*\.(css|js|ttf|woff2|ico|png|svg|jpg|jpeg|webp|html)[^"]*\\\"`,
    each match `m` replaced by
    `format!("\"/{}{}\"", output, m.replace("\\\"", ""))` (with the raw-string
    escapes spelled out).  The match necessarily runs from a literal `\"`
    through `/`, then characters other than `"` containing a `.ext`
    occurrence, up to the next `"`, which must be preceded by `\`. -/

def extsL : List (List Char) :=
  ["css".data, "js".data, "ttf".data, "woff2".data, "ico".data, "png".data,
   "svg".data, "jpg".data, "jpeg".data, "webp".data, "html".data]

/-- Does one of the recognised extensions start here? -/
def extAt (l : List Char) : Bool := extsL.any (fun e => leadsWith e l)

/-- Does the list contain a `.` immediately followed by a recognised
extension? -/
def hasDotExt : List Char → Bool
  | [] => false
  | c :: rest => (c == '.' && extAt rest) || hasDotExt rest

/-- Model of `capture.replace("\\\"", "")`: delete every (leftmost,
non-overlapping) occurrence of the two-character sequence `\"`. -/
def removeEscQuotes : List Char → List Char
  | [] => []
  | [c] => [c]
  | c :: d :: rest =>
    if c == '\\' && d == '"' then removeEscQuotes rest
    else c :: removeEscQuotes (d :: rest)

/-- Attempt to match the file-extension regex at the head of the input.
Returns the whole capture and the rest of the input after the match. -/
def matchFiles : List Char → Option (List Char × List Char)
  | '\\' :: '"' :: '/' :: rest =>
    match rest.dropWhile (fun c => c != '"') with
    | '"' :: tail =>
      if (rest.takeWhile (fun c => c != '"')).getLast? = some '\\' ∧
         hasDotExt (rest.takeWhile (fun c => c != '"')) = true then
        some ('\\' :: '"' :: '/' :: (rest.takeWhile (fun c => c != '"') ++ ['"']), tail)
      else none
    | _ => none
  | _ => none

def scanFilesF (p : List Char) : Nat → List Char → List Char
  | 0, l => l
  | _ + 1, [] => []
  | f + 1, c :: cs =>
    match matchFiles (c :: cs) with
    | some (cap, tail) =>
      ('\\' :: '"' :: '/' :: (p ++ removeEscQuotes cap) ++ ['\\', '"']) ++ scanFilesF p f tail
    | none => c :: scanFilesF p f cs

/-- Model of `replace_files(input, output)`. -/
def replaceFiles (input output : String) : String :=
  String.mk (scanFilesF output.data input.data.length input.data)

/-! The HTML rewriter, `modify_html` (src/memedeck/src/proxy.rs:90-165).
    lol_html is a streaming rewriter: it tokenizes the document and fires
    the registered handlers on start tags (`element!`) and on text chunks
    inside matching elements (`text!`), re-serializing everything else
    unchanged.  We model it as a token-stream transformation: `HToken` is
    the token type, `modifyToks` is the handler pipeline registered in
    `modify_html` (head-script injection, href/src rewriting on every
    element carrying those attributes, `replace_files` on text inside
    `<script>`), and `tokenizeF`/`renderToks` convert between strings and
    token streams. -/

inductive HToken where
  | text (s : List Char)
  | startTag (name : List Char) (attrs : List (List Char × List Char)) (selfClose : Bool)
  | endTag (name : List Char)
deriving DecidableEq

/-- Model of `mother_script(prefix)` (src/memedeck/src/proxy.rs:230-240). -/
def motherScript (p : List Char) : List Char :=
  "\n        <script>\n            const HYPERWARE_APP_PATH = \x27".data ++ p ++
    "\x27;\n        </script>\n    ".data

/-- The per-attribute rewrite performed by the `element!(selector)` handler
(src/memedeck/src/proxy.rs:134-145): a value starting with `/` becomes
`/{prefix}/{value.trim_start_matches('/')}`; anything else is untouched. -/
def rwVal (p : List Char) (v : List Char) : List Char :=
  if v.head? = some '/' then '/' :: (p ++ ('/' :: dropLeadingSlashes v)) else v

def hrefL : List Char := "href".data
def srcL : List Char := "src".data
def scriptL : List Char := "script".data
def headL : List Char := "head".data

/-- Apply the URL-attribute rewrite to one attribute pair: only `href` and
`src` are in the `url_attributes` list. -/
def rwAttr (p : List Char) (a : List Char × List Char) : List Char × List Char :=
  if a.1 = hrefL ∨ a.1 = srcL then (a.1, rwVal p a.2) else a

/-- The lol_html handler pipeline of `modify_html`, as a token-stream
transformation.  The boolean state tracks whether we are inside a
`<script>` element (for the `text!("script")` handler). -/
def modifyToks (p : List Char) : Bool → List HToken → List HToken
  | _, [] => []
  | inS, HToken.startTag n attrs sc :: ts =>
    let t := HToken.startTag n (attrs.map (rwAttr p)) sc
    (if n = headL then [t, HToken.text (motherScript p)] else [t]) ++
      modifyToks p (if n = scriptL ∧ sc = false then true else inS) ts
  | inS, HToken.endTag n :: ts =>
    HToken.endTag n :: modifyToks p (if n = scriptL then false else inS) ts
  | inS, HToken.text s :: ts =>
    (if inS then HToken.text (scanFilesF p s.length s) else HToken.text s) ::
      modifyToks p inS ts

/-- Attribute-list parser used by the tokenizer: returns the attributes, the
self-closing flag and the input after the closing `>`. -/
def readAttrs : Nat → List Char → (List (List Char × List Char) × Bool × List Char)
  | 0, l => ([], false, l)
  | f + 1, l =>
    let l1 := l.dropWhile (fun c => c == ' ' || c == '\n' || c == '\t' || c == '\r')
    match l1 with
    | [] => ([], false, [])
    | '>' :: rest => ([], false, rest)
    | '/' :: rest =>
      (match rest.dropWhile (fun c => c != '>') with
       | '>' :: rest2 => ([], true, rest2)
       | _ => ([], true, []))
    | _ =>
      let nm := l1.takeWhile (fun c => c != '=' && c != ' ' && c != '>' && c != '/')
      match l1.drop nm.length with
      | '=' :: '"' :: rest =>
        let v := rest.takeWhile (fun c => c != '"')
        let r := readAttrs f (rest.drop (v.length + 1))
        ((nm, v) :: r.1, r.2)
      | '=' :: rest =>
        let v := rest.takeWhile (fun c => c != ' ' && c != '>')
        let r := readAttrs f (rest.drop v.length)
        ((nm, v) :: r.1, r.2)
      | rest =>
        let r := readAttrs f rest
        ((nm, []) :: r.1, r.2)

/-- A best-effort HTML tokenizer (the streaming parse lol_html performs);
unrecognized structure is passed through as text. -/
def tokenizeF : Nat → List Char → List HToken
  | 0, _ => []
  | _ + 1, [] => []
  | f + 1, '<' :: '/' :: rest =>
    let nm := rest.takeWhile (fun c => c != '>')
    HToken.endTag (nm.takeWhile (fun c => c != ' ')) :: tokenizeF f (rest.drop (nm.length + 1))
  | f + 1, '<' :: c :: rest =>
    if c.isAlpha then
      let nm := (c :: rest).takeWhile (fun c2 => c2 != ' ' && c2 != '>' && c2 != '/' &&
        c2 != '\n' && c2 != '\t')
      let r := readAttrs f ((c :: rest).drop nm.length)
      HToken.startTag nm r.1 r.2.1 :: tokenizeF f r.2.2
    else
      HToken.text ['<'] :: tokenizeF f (c :: rest)
  | f + 1, c :: cs =>
    let t := (c :: cs).takeWhile (fun c2 => c2 != '<')
    if t.isEmpty then HToken.text [c] :: tokenizeF f cs
    else HToken.text t :: tokenizeF f ((c :: cs).drop t.length)

def renderAttr (a : List Char × List Char) : List Char :=
  ' ' :: (a.1 ++ ('=' :: '"' :: (a.2 ++ ['"'])))

def renderTok : HToken → List Char
  | HToken.text s => s
  | HToken.startTag n attrs sc =>
    '<' :: (n ++ attrs.flatMap renderAttr ++ (if sc then ['/', '>'] else ['>']))
  | HToken.endTag n => '<' :: '/' :: (n ++ ['>'])

def renderToks (ts : List HToken) : List Char := ts.flatMap renderTok

/-- Model of `modify_html(html_bytes, prefix)`: the prefix is first cleaned
with `trim_matches('/')` (src/memedeck/src/proxy.rs:92), then the handler
pipeline runs over the token stream. -/
def modifyHtmlStr (html pfxStr : String) : String :=
  String.mk (renderToks (modifyToks (trimSlashes pfxStr.data) false
    (tokenizeF html.data.length html.data)))

/-! URL handling (src/memedeck/src/proxy.rs:14-44 and 167-186). -/

structure SimpleUrl where
  scheme : String
  host : String
  path : String
  query : Option String
deriving DecidableEq

/-- Minimal model of `Url::parse` for absolute http(s) URLs: splits scheme,
host, path and query; a missing path is normalized to `/`. -/
def parseUrl (s : String) : Option SimpleUrl :=
  let l := s.data
  let scheme := l.takeWhile (fun c => c != ':')
  match l.dropWhile (fun c => c != ':') with
  | ':' :: '/' :: '/' :: rest =>
    let host := rest.takeWhile (fun c => c != '/' && c != '?' && c != '#')
    let after := rest.dropWhile (fun c => c != '/' && c != '?' && c != '#')
    let path := after.takeWhile (fun c => c != '?' && c != '#')
    let query :=
      match after.dropWhile (fun c => c != '?' && c != '#') with
      | '?' :: q => some (String.mk (q.takeWhile (fun c => c != '#')))
      | _ => none
    if scheme.isEmpty || host.isEmpty then none
    else some { scheme := String.mk scheme, host := String.mk host,
                path := if path.isEmpty then "/" else String.mk path, query := query }
  | _ => none

/-- Model of `replace_domain(original_url, new_domain)`
(src/memedeck/src/proxy.rs:14-18): parse the new domain, then overwrite its
path with the original URL's path.  Only the path is copied — the query of
the result is whatever the parsed `new_domain` carries. -/
def replaceDomain (originalUrl : SimpleUrl) (newDomain : String) : Option SimpleUrl :=
  (parseUrl newDomain).map (fun nu => { nu with path := originalUrl.path })

/-- Split a path (without its leading slash) into `/`-separated segments,
like `Url::path_segments`. -/
def splitSegs : List Char → List (List Char)
  | [] => [[]]
  | '/' :: rest => [] :: splitSegs rest
  | c :: rest =>
    match splitSegs rest with
    | s :: ss => (c :: s) :: ss
    | [] => [[c]]

def joinSegs : List (List Char) → List Char
  | [] => []
  | [s] => s
  | s :: ss => s ++ ('/' :: joinSegs ss)

def pathSegments (u : SimpleUrl) : List (List Char) := splitSegs (u.path.data.drop 1)

/-- Model of `split_first_path_segment(url)` (src/memedeck/src/proxy.rs:20-44):
returns the first path segment and the URL with the remaining segments as its
path (`/` when none remain).  All other URL components are untouched. -/
def splitFirstPathSegment (u : SimpleUrl) : String × SimpleUrl :=
  let segs := pathSegments u
  let firstSegment := String.mk (segs.headD [])
  let rest := segs.tail
  let newPath := if rest.isEmpty then "/" else String.mk ('/' :: joinSegs rest)
  (firstSegment, { u with path := newPath })

/-! The proxy engine, `run_proxy` (src/memedeck/src/proxy.rs:167-228).
    The blob body, the upstream transport and the outbound write are
    collaborator effects; the upstream's reply is an oracle input and the
    response written back is returned as data. -/

def pkgSeg : String := "/memedeck:memedeck:memedeck-tester.os"

/-- `WEB2_URL` of the variant that drives the three-argument `run_proxy`
(src/memedeck/src/lib copy.rs:21). -/
def WEB2_URL_STAGING : String := "https://staging.memedeck.xyz"

structure HttpResponseM where
  status : Nat
  headers : List (String × String)
  body : String
deriving DecidableEq

structure SentResponse where
  status : Nat
  headers : List (String × String)
  body : String
deriving DecidableEq

/-- Case-insensitive header lookup (http `HeaderMap::get`). -/
def headerGet (hs : List (String × String)) (k : String) : Option String :=
  (hs.find? (fun h => lowerStr h.1 == lowerStr k)).map Prod.snd

/-- Case-insensitive header insert-or-replace (http `HeaderMap::insert`). -/
def headerInsert (hs : List (String × String)) (k v : String) : List (String × String) :=
  (k, v) :: hs.filter (fun h => lowerStr h.1 != lowerStr k)

/-- The upstream-target construction of `run_proxy`
(src/memedeck/src/proxy.rs:175-180): `replace_domain` onto
`{web2_url}/memedeck:memedeck:memedeck-tester.os`, then
`split_first_path_segment`. -/
def buildTarget (reqUrl : SimpleUrl) (web2Url : String) : Option (String × SimpleUrl) :=
  (replaceDomain reqUrl (web2Url ++ pkgSeg)).map splitFirstPathSegment

structure ProxyOutcome where
  upstreamUrl : SimpleUrl
  upstreamHeaders : List (String × String)
  sent : SentResponse
deriving DecidableEq

/-- Model of `run_proxy(request, web2_url, cookie)`.  `upstreamResult` is the
outcome of `send_request_await_response`; the returned `ProxyOutcome` records
the URL and headers of the upstream call and the response handed to
`send_response`. -/
def runProxy (reqUrl : SimpleUrl) (web2Url cookie : String)
    (upstreamResult : Except String HttpResponseM) : Except String ProxyOutcome :=
  match buildTarget reqUrl web2Url with
  | none => Except.error "invalid upstream url"
  | some (firstPathSegment, url) =>
    match upstreamResult with
    | Except.error e => Except.error e
    | Except.ok response =>
      let resheaders := headerInsert response.headers "set-cookie" cookie
      let contentType := (headerGet resheaders "content-type").getD "text/html"
      let mime := stripParams contentType
      let body :=
        if mime = "text/html" then modifyHtmlStr response.body firstPathSegment
        else if mime = "text/css" then replaceUrlsCss response.body firstPathSegment
        else if mime = "application/javascript" then replaceUrlsJs response.body firstPathSegment
        else if mime = "application/octet-stream" then replaceUrlsJs response.body firstPathSegment
        else response.body
      Except.ok {
        upstreamUrl := url
        upstreamHeaders := [("Cookie", cookie)]
        sent := { status := response.status
                  headers := [("Content-type", contentType)]
                  body := body } }

/-- Modelled from the spec (section 4.2 Content-Type Dispatcher): select the
rewrite path by the declared media type with any parameter suffix stripped;
`text/html` to the HTML rewriter, `text/css` to the CSS rewriter,
`application/javascript` and `application/octet-stream` to the JS bundle
rewriter, anything else passthrough; a missing header defaults to
`text/html`. -/
def specDispatch (contentType : Option String) (body : String) (pfxSeg : String) : String :=
  match contentType with
  | none => modifyHtmlStr body pfxSeg
  | some ct =>
    let mime := stripParams ct
    if mime = "text/html" then modifyHtmlStr body pfxSeg
    else if mime = "text/css" then replaceUrlsCss body pfxSeg
    else if mime = "application/javascript" ∨ mime = "application/octet-stream" then
      replaceUrlsJs body pfxSeg
    else body

/-! The auto-login orchestrator (src/memedeck/src/lib.rs:126-247).
    The signer round-trips and the login POST are collaborator effects,
    provided as oracle inputs in `LoginEnv`; the JSON body of the login
    reply is given already structured (its construction by `serde_json`
    is external). -/

inductive Json where
  | str (s : String)
  | num (n : Int)
  | boolean (b : Bool)
  | null
  | arr (xs : List Json)
  | obj (fields : List (String × Json))

/-- `serde_json::Value::get(key)`: field lookup on objects, `None` otherwise. -/
def jsonGet (j : Json) (k : String) : Option Json :=
  match j with
  | Json.obj fields => (fields.find? (fun f => f.1 == k)).map Prod.snd
  | _ => none

/-- `serde_json::from_value::<String>`. -/
def jsonAsString : Json → Except String String
  | Json.str s => Except.ok s
  | _ => Except.error "invalid type: not a string"

/-- Oracle inputs for one run of the auto-login orchestrator: the outcomes of
the three signer round-trips (`send_and_await_response` outer transport
result, then the collaborator's own ok/err reply) and of the login POST
(transport result, then the JSON parse of the body). -/
structure LoginEnv where
  signSend : Except String (Except String Unit)
  verifySend : Except String (Except String Unit)
  makeMsgSend : Except String (Except String Unit)
  loginPost : Except String (Except String Json)

/-- Model of `attempt_login` (src/memedeck/src/lib.rs:182-240): POST to the
login endpoint, parse the JSON body, read the `cookie` field and synthesize
`hyperware_token={value}; path=/;`.  Any failure returns an error. -/
def attemptLogin (postResult : Except String (Except String Json)) : Except String String :=
  match postResult with
  | Except.error _ => Except.error "Failed to send request"
  | Except.ok (Except.error e) => Except.error e
  | Except.ok (Except.ok resjson) =>
    match jsonGet resjson "cookie" with
    | none => Except.error "Signature verification failed"
    | some v =>
      match jsonAsString v with
      | Except.error e => Except.error e
      | Except.ok s => Except.ok ("hyperware_token=" ++ s ++ "; path=/;")

/-- Model of `auto_login` (src/memedeck/src/lib.rs:145-180): the three signer
steps in sequence (sign with its inner error collapsed to a fixed message,
then verify and make-message with `??` double propagation), then
`attempt_login`. -/
def autoLogin (env : LoginEnv) : Except String String :=
  match env.signSend with
  | Except.error e => Except.error e
  | Except.ok (Except.error _) => Except.error "Failed to send request"
  | Except.ok (Except.ok _) =>
    match env.verifySend with
    | Except.error e => Except.error e
    | Except.ok (Except.error e) => Except.error e
    | Except.ok (Except.ok _) =>
      match env.makeMsgSend with
      | Except.error e => Except.error e
      | Except.ok (Except.error e) => Except.error e
      | Except.ok (Except.ok _) => attemptLogin env.loginPost

def packagePath : String := "/app:memedeck:meme-deck.os"

def homePath : String := packagePath ++ "/home"

/-- The refresh page of `send_refresh_response` (src/memedeck/src/lib.rs:253-310);
literal braces of the CSS are written as hex escapes. -/
def refreshHtml (delaySeconds : Nat) : String :=
  "<!DOCTYPE html>\n        <html>\n        <head>\n            <meta http-equiv=\"refresh\" content=\"" ++
  toString delaySeconds ++ "; url=" ++ homePath ++
  "\">\n            <title>Redirecting...</title>\n            <style>\n                body \x7b\n                    background-color: #000000;\n                    color: #e0e0e0;\n                    font-family: Arial, sans-serif;\n                    display: flex;\n                    flex-direction: column;\n                    align-items: center;\n                    justify-content: center;\n                    height: 100vh;\n                    margin: 0;\n                    padding: 0;\n                \x7d\n                \n                h1 \x7b\n                    color: #ffffff;\n                    margin-bottom: 20px;\n                \x7d\n                \n                p \x7b\n                    margin-bottom: 30px;\n                \x7d\n                \n                .spinner \x7b\n                    width: 50px;\n                    height: 50px;\n                    border: 5px solid rgba(255, 255, 255, 0.3);\n                    border-radius: 50%;\n                    border-top-color: #2086FF;\n                    animation: spin 1s ease-in-out infinite;\n                    margin-bottom: 20px;\n                \x7d\n                \n                @keyframes spin \x7b\n                    to \x7b\n                        transform: rotate(360deg);\n                    \x7d\n                \x7d\n                \n                .container \x7b\n                    text-align: center;\n                \x7d\n            </style>\n        </head>\n        <body>\n            <div class=\"container\">\n                <div class=\"spinner\"></div>\n            </div>\n        </body>\n        </html>"

/-- Model of `send_refresh_response(delay_seconds, cookie)`
(src/memedeck/src/lib.rs:249-321): a `StatusCode::FOUND` (302) response with
`Content-Type: text/html` and `Set-Cookie` set to the given cookie. -/
def sendRefreshResponse (delaySeconds : Nat) (cookie : String) : SentResponse :=
  { status := 302
    headers := [("Content-Type", "text/html"), ("Set-Cookie", cookie)]
    body := refreshHtml delaySeconds }

structure PageOutcome where
  cookie : Option String
  sent : List SentResponse
  result : Except String Unit

/-- Model of `handle_page_request` (src/memedeck/src/lib.rs:126-143).  When a
cookie is held the request is proxied (that variant's four-argument
`run_proxy` is not part of the sources, so its effect is the oracle
`proxyOutcome`); when none is held, `auto_login` runs: on success the cookie
is stored and the refresh response is sent, on failure the `?` operator
propagates the error before anything is sent.  The returned `PageOutcome`
records the cookie cell after the call, every response sent, and the
function's own result. -/
def handlePageRequest (cookie : Option String) (env : LoginEnv)
    (proxyOutcome : Except String SentResponse) : PageOutcome :=
  match cookie with
  | some _ =>
    match proxyOutcome with
    | Except.ok r => { cookie := cookie, sent := [r], result := Except.ok () }
    | Except.error e => { cookie := cookie, sent := [], result := Except.error e }
  | none =>
    match autoLogin env with
    | Except.error e => { cookie := none, sent := [], result := Except.error e }
    | Except.ok c =>
      { cookie := some c, sent := [sendRefreshResponse 1 c], result := Except.ok () }

/-! Concrete fixtures used by the closed theorems and witnesses below. -/

/-- A typical inbound request URL, carrying a query string. -/
def egReq : SimpleUrl :=
  { scheme := "http", host := "localhost:8080",
    path := "/memedeck:memedeck:memedeck-tester.os/home", query := some "a=b" }

/-- `Url::parse` of the configured upstream base plus package segment. -/
def stagingBase : SimpleUrl :=
  { scheme := "https", host := "staging.memedeck.xyz",
    path := "/memedeck:memedeck:memedeck-tester.os", query := none }

/-- A CSS upstream reply that also tries to set its own cookie. -/
def egUpstream : HttpResponseM :=
  { status := 200
    headers := [("content-type", "text/css; charset=utf-8"), ("set-cookie", "foo=bar")]
    body := "url(/x)" }

/-- The response `run_proxy` hands to `send_response` for `egUpstream`. -/
def egSent : SentResponse :=
  { status := 200
    headers := [("Content-type", "text/css; charset=utf-8")]
    body := "url(/memedeck:memedeck:memedeck-tester.os/x)" }

/-- The full proxy outcome for `egReq`/`egUpstream`. -/
def egOutcome : ProxyOutcome :=
  { upstreamUrl := { scheme := "https", host := "staging.memedeck.xyz",
                     path := "/home", query := none }
    upstreamHeaders := [("Cookie", "session=abc123")]
    sent := egSent }

/-- A binary upstream reply with an upstream `Set-Cookie` header. -/
def pngUpstream : HttpResponseM :=
  { status := 200
    headers := [("content-type", "image/png"), ("set-cookie", "foo=bar")]
    body := "PNGBYTES" }

/-- Login oracle where every step succeeds and the login endpoint returns a
JSON body with a `cookie` field. -/
def egEnvGood : LoginEnv :=
  { signSend := Except.ok (Except.ok ())
    verifySend := Except.ok (Except.ok ())
    makeMsgSend := Except.ok (Except.ok ())
    loginPost := Except.ok (Except.ok (Json.obj [("cookie", Json.str "tok")])) }

/-- Login oracle where the very first signer round-trip fails in transport. -/
def envSignFail : LoginEnv :=
  { signSend := Except.error "boom"
    verifySend := Except.ok (Except.ok ())
    makeMsgSend := Except.ok (Except.ok ())
    loginPost := Except.ok (Except.ok Json.null) }

/-- Login oracle where the login endpoint answers
`{"error":"bad signature"}` (no `ok`, no `cookie`). -/
def envBadLogin : LoginEnv :=
  { signSend := Except.ok (Except.ok ())
    verifySend := Except.ok (Except.ok ())
    makeMsgSend := Except.ok (Except.ok ())
    loginPost := Except.ok (Except.ok (Json.obj [("error", Json.str "bad signature")])) }

/-! Helper lemmas. -/

theorem data_append (a b : String) : (a ++ b).data = a.data ++ b.data := by
  cases a; cases b; rfl

theorem string_ne_of_data_length_ne (a b : String) (h : a.data.length ≠ b.data.length) :
    a ≠ b := by
  intro he; exact h (by rw [he])

/-- C1: the spec says the response `run_proxy` sends to the client carries a
`Set-Cookie` header equal to the session cookie, superseding the upstream's
own `Set-Cookie`.  The code writes the cookie into the upstream response's
header map (a dead store, src/memedeck/src/proxy.rs:188) but then hands
`send_response` a fresh header map holding only `Content-type`
(src/memedeck/src/proxy.rs:199-200, 225): with session cookie
`session=abc123` and an upstream reply carrying `set-cookie: foo=bar`, the
response sent to the client has no `Set-Cookie` header at all (the upstream
value is indeed discarded). -/
theorem c1_sent_response_has_no_set_cookie :
    (runProxy egReq WEB2_URL_STAGING "session=abc123" (Except.ok pngUpstream)).map
        (fun o => (headerGet o.sent.headers "set-cookie", o.sent.headers)) =
      Except.ok (none, [("Content-type", "image/png")]) := rfl

/-- C9: the URL sent upstream never carries the inbound request's query
string.  `replace_domain` copies only the path of the original URL onto the
parsed upstream base, so the upstream URL's query is whatever the configured
base string parses to — and for the configured base (which has no `?`) it is
always `none`, whatever query the inbound request carried. -/
theorem c9_query_string_dropped :
    (∀ (u : SimpleUrl) (web2 cookie : String) (resp : HttpResponseM) (base : SimpleUrl),
        parseUrl (web2 ++ pkgSeg) = some base →
        (runProxy u web2 cookie (Except.ok resp)).map (fun o => o.upstreamUrl.query) =
          Except.ok base.query) ∧
    (∀ (u : SimpleUrl) (cookie : String) (resp : HttpResponseM),
        (runProxy u WEB2_URL_STAGING cookie (Except.ok resp)).map
          (fun o => o.upstreamUrl.query) = Except.ok none) := by
  have h1 : ∀ (u : SimpleUrl) (web2 cookie : String) (resp : HttpResponseM) (base : SimpleUrl),
      parseUrl (web2 ++ pkgSeg) = some base →
      (runProxy u web2 cookie (Except.ok resp)).map (fun o => o.upstreamUrl.query) =
        Except.ok base.query := by
    intro u web2 cookie resp base hb
    simp [runProxy, buildTarget, replaceDomain, hb, splitFirstPathSegment, Except.map]
  exact ⟨h1, fun u cookie resp => h1 u WEB2_URL_STAGING cookie resp stagingBase rfl⟩

/-- Witness for C9: the query `a=b` of `egReq` is dropped from the upstream
URL. -/
theorem c9_query_string_dropped_witness :
    (runProxy egReq WEB2_URL_STAGING "session=abc123" (Except.ok pngUpstream)).map
      (fun o => o.upstreamUrl.query) = Except.ok none :=
  c9_query_string_dropped.1 egReq WEB2_URL_STAGING "session=abc123" pngUpstream stagingBase rfl

/-- C2 counterexample: the claim says an HTTP response is sent for the
triggering request even when the auto-login handshake fails.  With a signer
transport failure, `auto_login(our)?` propagates the error out of
`handle_page_request` (src/memedeck/src/lib.rs:136) before
`send_refresh_response` runs: nothing is sent. -/
theorem c2_login_failure_sends_no_response :
    autoLogin envSignFail = Except.error "boom" ∧
    (handlePageRequest none envSignFail (Except.error "unused")).sent = [] := ⟨rfl, rfl⟩

/-- C2 (amended): for a request arriving with no session cookie, a
redirect/refresh page (never the requested resource) is sent exactly when
the auto-login handshake succeeds; when it fails at any step, the error
propagates and no response is sent for that request. -/
theorem c2_refresh_sent_iff_login_succeeds (env : LoginEnv)
    (pr : Except String SentResponse) :
    (∀ c, autoLogin env = Except.ok c →
      (handlePageRequest none env pr).sent = [sendRefreshResponse 1 c]) ∧
    (∀ e, autoLogin env = Except.error e → (handlePageRequest none env pr).sent = []) := by
  constructor <;> intro x h <;> simp [handlePageRequest, h]

/-- Witness for C2: on the all-success oracle the refresh page is the one
response sent. -/
theorem c2_refresh_sent_iff_login_succeeds_witness :
    (handlePageRequest none egEnvGood (Except.error "unused")).sent =
      [sendRefreshResponse 1 "hyperware_token=tok; path=/;"] :=
  (c2_refresh_sent_iff_login_succeeds egEnvGood (Except.error "unused")).1 _ rfl

/-- C3: whenever the auto-login orchestrator fails — signer transport error,
signer-reported error, login POST transport failure, unparsable JSON, or a
JSON body without the `cookie` field — it returns an error and the session
state is left exactly as it was (absent stays absent, nothing is sent); the
cookie cell is written only on success. -/
theorem c3_login_failure_leaves_state_untouched (env : LoginEnv)
    (pr : Except String SentResponse) :
    (∀ e, autoLogin env = Except.error e →
      handlePageRequest none env pr =
        { cookie := none, sent := [], result := Except.error e }) ∧
    (∀ c, (handlePageRequest none env pr).cookie = some c → autoLogin env = Except.ok c) ∧
    (∀ e, env.signSend = Except.error e → autoLogin env = Except.error e) ∧
    (∀ r, env.signSend = Except.ok (Except.error r) →
      autoLogin env = Except.error "Failed to send request") ∧
    (env.signSend = Except.ok (Except.ok ()) → env.verifySend = Except.ok (Except.ok ()) →
      env.makeMsgSend = Except.ok (Except.ok ()) →
      (∀ e, env.loginPost = Except.error e →
        autoLogin env = Except.error "Failed to send request") ∧
      (∀ e, env.loginPost = Except.ok (Except.error e) → autoLogin env = Except.error e) ∧
      (∀ rj, env.loginPost = Except.ok (Except.ok rj) → jsonGet rj "cookie" = none →
        autoLogin env = Except.error "Signature verification failed")) := by
  refine ⟨?_, ?_, ?_, ?_, ?_⟩
  · intro e h; simp [handlePageRequest, h]
  · intro c h
    rcases ha : autoLogin env with e | c'
    · simp [handlePageRequest, ha] at h
    · simp_all [handlePageRequest]
  · intro e h; simp [autoLogin, h]
  · intro r h; simp [autoLogin, h]
  · intro hs hv hm
    refine ⟨?_, ?_, ?_⟩
    · intro e h; simp [autoLogin, attemptLogin, hs, hv, hm, h]
    · intro e h; simp [autoLogin, attemptLogin, hs, hv, hm, h]
    · intro rj h hc; simp [autoLogin, attemptLogin, hs, hv, hm, h, hc]

/-- Witness for C3: the spec's own failure example, a login reply
`{"error":"bad signature"}`, yields an error and an unchanged (absent)
session state. -/
theorem c3_login_failure_leaves_state_untouched_witness :
    autoLogin envBadLogin = Except.error "Signature verification failed" ∧
    handlePageRequest none envBadLogin (Except.error "unused") =
      { cookie := none, sent := [], result := Except.error "Signature verification failed" } := by
  have h := c3_login_failure_leaves_state_untouched envBadLogin (Except.error "unused")
  have ha : autoLogin envBadLogin = Except.error "Signature verification failed" :=
    (h.2.2.2.2 rfl rfl rfl).2.2 (Json.obj [("error", Json.str "bad signature")]) rfl rfl
  exact ⟨ha, h.1 _ ha⟩

/-- C10: in the path-prefix-aware variant, when auto-login succeeds the
refresh response sent for the triggering request has status 302 (FOUND) and
carries a `Set-Cookie` header equal to the newly obtained session cookie. -/
theorem c10_refresh_carries_cookie_and_302 (env : LoginEnv)
    (pr : Except String SentResponse) (c : String) (h : autoLogin env = Except.ok c) :
    (handlePageRequest none env pr).sent = [sendRefreshResponse 1 c] ∧
    (sendRefreshResponse 1 c).status = 302 ∧
    headerGet (sendRefreshResponse 1 c).headers "Set-Cookie" = some c := by
  refine ⟨?_, rfl, rfl⟩
  simp [handlePageRequest, h]

/-- Witness for C10 at the all-success oracle. -/
theorem c10_refresh_carries_cookie_and_302_witness :
    (handlePageRequest none egEnvGood (Except.ok egSent)).sent =
      [sendRefreshResponse 1 "hyperware_token=tok; path=/;"] ∧
    (sendRefreshResponse 1 "hyperware_token=tok; path=/;").status = 302 ∧
    headerGet (sendRefreshResponse 1 "hyperware_token=tok; path=/;").headers "Set-Cookie" =
      some "hyperware_token=tok; path=/;" :=
  c10_refresh_carries_cookie_and_302 egEnvGood (Except.ok egSent) _ rfl

/-- C6 counterexample: with derived rewrite prefix `other`, the JS rewriter
does not prefix `_next/` with that mount path — the replacement is the
hardcoded process path, and the prefix never appears in the output. -/
theorem c6_js_rewrite_ignores_pfx :
    replaceUrlsJs "_next/app.js" "other" =
      "memedeck:memedeck:memedeck-tester.os/_next/app.js" ∧
    containsSub "other".data
      ("memedeck:memedeck:memedeck-tester.os/_next/app.js" : String).data = false := by
  decide

theorem replaceAllF_jsTok_eq_scanJsF : ∀ (f : Nat) (l : List Char),
    replaceAllF jsTok jsRepl f l = scanJsF f l := by
  intro f
  induction f with
  | zero => intro l; rfl
  | succ f ih =>
    intro l
    cases l with
    | nil => rfl
    | cons c cs =>
      by_cases h : leadsWith jsTok (c :: cs) = true
      · simp [replaceAllF, scanJsF, h, ih]
      · simp [replaceAllF, scanJsF, h, ih]

/-- C6 (amended): for every input and every derived rewrite prefix, the JS
bundle rewriter replaces each literal occurrence of `_next/` with the fixed
string `memedeck:memedeck:memedeck-tester.os/_next/` — the hardcoded mount
path — ignoring the derived prefix argument entirely. -/
theorem c6_js_rewrite_uses_fixed_mount (s output : String) :
    replaceUrlsJs s output = jsFixedRewrite s := by
  unfold replaceUrlsJs jsFixedRewrite
  exact congrArg String.mk (replaceAllF_jsTok_eq_scanJsF s.data.length s.data).symm

theorem find?_filter_ct (hs : List (String × String)) :
    ((hs.filter (fun h => lowerStr h.1 != lowerStr "set-cookie")).find?
        (fun h => lowerStr h.1 == lowerStr "content-type")) =
      hs.find? (fun h => lowerStr h.1 == lowerStr "content-type") := by
  induction hs with
  | nil => rfl
  | cons a tl ih =>
    by_cases hq : (lowerStr a.1 != lowerStr "set-cookie") = true
    · by_cases hp : (lowerStr a.1 == lowerStr "content-type") = true
      · simp [List.filter_cons, List.find?, hq, hp]
      · simp [List.filter_cons, List.find?, hq, hp, ih]
    · have hq' : lowerStr a.1 = lowerStr "set-cookie" := by
        simpa [bne_iff_ne] using hq
      have hp : (lowerStr a.1 == lowerStr "content-type") = false := by
        rw [hq']; decide
      simp [List.filter_cons, List.find?, hq, hp, ih]

/-- Inserting the session cookie into the upstream header map does not
change which `content-type` header is found. -/
theorem headerGet_insert_set_cookie (hs : List (String × String)) (v : String) :
    headerGet (headerInsert hs "set-cookie" v) "content-type" =
      headerGet hs "content-type" := by
  unfold headerGet headerInsert
  have h0 : ((lowerStr "set-cookie" == lowerStr "content-type")) = false := by decide
  simp only [List.find?, h0]
  rw [find?_filter_ct]

/-- C4: the rewriter applied to the upstream body is selected by the declared
media type with any parameter suffix stripped — `text/html` to the HTML
rewriter, `text/css` to the CSS rewriter, `application/javascript` and
`application/octet-stream` to the JS bundle rewriter, anything else
passthrough; a missing `content-type` header is treated as `text/html`; and
the emitted response preserves the upstream status code.  `specDispatch` is
the dispatcher transcribed from the spec's words. -/
theorem c4_content_type_dispatch (reqUrl : SimpleUrl) (web2 cookie : String)
    (resp : HttpResponseM) (base : SimpleUrl) (out : ProxyOutcome)
    (hb : parseUrl (web2 ++ pkgSeg) = some base)
    (h : runProxy reqUrl web2 cookie (Except.ok resp) = Except.ok out) :
    out.sent.status = resp.status ∧
    out.sent.body = specDispatch (headerGet resp.headers "content-type") resp.body
      (splitFirstPathSegment { base with path := reqUrl.path }).1 := by
  simp [runProxy, buildTarget, replaceDomain, hb, splitFirstPathSegment] at h
  subst h
  refine ⟨rfl, ?_⟩
  dsimp only
  rw [headerGet_insert_set_cookie]
  rcases hh : headerGet resp.headers "content-type" with _ | ct
  · simp only [Option.getD_none]
    rw [if_pos (by decide : stripParams "text/html" = "text/html")]
    simp [specDispatch, splitFirstPathSegment]
  · simp only [Option.getD_some]
    by_cases h1 : stripParams ct = "text/html"
    · simp [specDispatch, h1, splitFirstPathSegment]
    · by_cases h2 : stripParams ct = "text/css"
      · simp [specDispatch, h1, h2, splitFirstPathSegment]
      · by_cases h3 : stripParams ct = "application/javascript"
        · simp [specDispatch, h1, h2, h3, splitFirstPathSegment]
        · by_cases h4 : stripParams ct = "application/octet-stream"
          · simp [specDispatch, h1, h2, h3, h4, splitFirstPathSegment]
          · simp [specDispatch, h1, h2, h3, h4, splitFirstPathSegment]

/-- Witness for C4 at the spec's own example, `text/css; charset=utf-8`. -/
theorem c4_content_type_dispatch_witness :
    egOutcome.sent.status = egUpstream.status ∧
    egOutcome.sent.body = specDispatch (headerGet egUpstream.headers "content-type")
      egUpstream.body (splitFirstPathSegment { stagingBase with path := egReq.path }).1 :=
  c4_content_type_dispatch egReq WEB2_URL_STAGING "session=abc123" egUpstream stagingBase
    egOutcome rfl rfl

theorem modifyToks_mem_startTag (p n : List Char) (attrs : List (List Char × List Char))
    (sc : Bool) :
    ∀ (toks : List HToken) (b : Bool), HToken.startTag n attrs sc ∈ toks →
      HToken.startTag n (attrs.map (rwAttr p)) sc ∈ modifyToks p b toks := by
  intro toks
  induction toks with
  | nil => intro b h; cases h
  | cons t ts ih =>
    intro b h
    rcases List.mem_cons.mp h with h1 | h2
    · subst h1
      by_cases hn : n = headL
      · simp [modifyToks, hn]
      · simp [modifyToks, hn]
    · cases t with
      | startTag m ma msc =>
        simp only [modifyToks]
        exact List.mem_append_right _ (ih _ h2)
      | endTag m =>
        simp only [modifyToks]
        exact List.mem_cons_of_mem _ (ih _ h2)
      | text s =>
        simp only [modifyToks]
        exact List.mem_cons_of_mem _ (ih _ h2)

/-- C5: the HTML rewriter rewrites the `href`/`src` attribute of every
element whose attribute value starts with `/` to
`/{prefix}/{value-with-leading-slashes-stripped}` and leaves attribute
values not starting with `/` (absolute external URLs) unchanged: every
start tag in the token stream reappears in the rewritten stream with
exactly this per-attribute transformation applied, and the transformation
acts as the claim states on each attribute pair. -/
theorem c5_html_attr_rewrite (p : List Char) (toks : List HToken) (b : Bool)
    (n : List Char) (attrs : List (List Char × List Char)) (sc : Bool) :
    (HToken.startTag n attrs sc ∈ toks →
      HToken.startTag n (attrs.map (rwAttr p)) sc ∈ modifyToks p b toks) ∧
    (∀ a v, ((a = hrefL ∨ a = srcL) →
        (v.head? = some '/' →
          rwAttr p (a, v) = (a, '/' :: (p ++ ('/' :: dropLeadingSlashes v)))) ∧
        (v.head? ≠ some '/' → rwAttr p (a, v) = (a, v))) ∧
      ((a ≠ hrefL ∧ a ≠ srcL) → rwAttr p (a, v) = (a, v))) := by
  refine ⟨modifyToks_mem_startTag p n attrs sc toks b, ?_⟩
  intro a v
  refine ⟨fun ha => ⟨fun hv => ?_, fun hv => ?_⟩, fun hno => ?_⟩
  · rcases ha with ha | ha <;> simp [rwAttr, rwVal, ha, hv]
  · rcases ha with ha | ha <;> simp [rwAttr, rwVal, ha, hv]
  · simp [rwAttr, hno.1, hno.2]

/-- Witness for C5: a single anchor tag with `href="/a/b"` and prefix `p`
is rewritten to `href="/p/a/b"`. -/
theorem c5_html_attr_rewrite_witness :
    HToken.startTag "a".data [(hrefL, "/p/a/b".data)] false ∈
      modifyToks "p".data false [HToken.startTag "a".data [(hrefL, "/a/b".data)] false] := by
  have h := (c5_html_attr_rewrite "p".data
      [HToken.startTag "a".data [(hrefL, "/a/b".data)] false] false
      "a".data [(hrefL, "/a/b".data)] false).1 (List.mem_singleton.mpr rfl)
  have e : [(hrefL, "/a/b".data)].map (rwAttr "p".data) = [(hrefL, "/p/a/b".data)] := by
    decide
  rw [e] at h
  exact h

theorem string_data_eq (a b : String) (h : a.data = b.data) : a = b := by
  cases a; cases b; exact congrArg String.mk h

theorem takeWhile_all_append (q : Char → Bool) :
    ∀ (l₁ l₂ : List Char), (∀ c ∈ l₁, q c = true) →
      (l₁ ++ l₂).takeWhile q = l₁ ++ l₂.takeWhile q := by
  intro l₁
  induction l₁ with
  | nil => intro l₂ h; rfl
  | cons a as ih =>
    intro l₂ h
    have ha : q a = true := h a (List.mem_cons_self a as)
    simp only [List.cons_append, List.takeWhile_cons, ha, if_true]
    rw [ih l₂ (fun c hc => h c (List.mem_cons_of_mem a hc))]

theorem dropWhile_all_append (q : Char → Bool) :
    ∀ (l₁ l₂ : List Char), (∀ c ∈ l₁, q c = true) →
      (l₁ ++ l₂).dropWhile q = l₂.dropWhile q := by
  intro l₁
  induction l₁ with
  | nil => intro l₂ h; rfl
  | cons a as ih =>
    intro l₂ h
    have ha : q a = true := h a (List.mem_cons_self a as)
    simp only [List.cons_append, List.dropWhile_cons, ha, if_true]
    exact ih l₂ (fun c hc => h c (List.mem_cons_of_mem a hc))

theorem leadsWith_append (e : List Char) :
    ∀ (l l₂ : List Char), leadsWith e l = true → leadsWith e (l ++ l₂) = true := by
  induction e with
  | nil => intro l l₂ _; rfl
  | cons a as ih =>
    intro l l₂ h
    cases l with
    | nil => simp [leadsWith] at h
    | cons b bs =>
      simp only [leadsWith, Bool.and_eq_true] at h ⊢
      exact ⟨h.1, ih bs l₂ h.2⟩

theorem extAt_append (l l₂ : List Char) (h : extAt l = true) : extAt (l ++ l₂) = true := by
  unfold extAt at h ⊢
  rw [List.any_eq_true] at h ⊢
  obtain ⟨e, he, hp⟩ := h
  exact ⟨e, he, leadsWith_append e l l₂ hp⟩

theorem hasDotExt_append (l l₂ : List Char) (h : hasDotExt l = true) :
    hasDotExt (l ++ l₂) = true := by
  induction l with
  | nil => simp [hasDotExt] at h
  | cons c cs ih =>
    simp only [hasDotExt, Bool.or_eq_true, Bool.and_eq_true] at h
    simp only [List.cons_append, hasDotExt, Bool.or_eq_true, Bool.and_eq_true]
    rcases h with ⟨h1, h2⟩ | h2
    · exact Or.inl ⟨h1, extAt_append cs l₂ h2⟩
    · exact Or.inr (ih h2)

theorem removeEsc_append : ∀ (l : List Char), ('"' : Char) ∉ l →
    removeEscQuotes (l ++ ['\\', '"']) = l := by
  intro l
  induction l with
  | nil => intro _; rfl
  | cons c cs ih =>
    intro h
    cases cs with
    | nil =>
      have hc : (c == '\\' && ('\\' : Char) == '"') = false := by
        have : (('\\' : Char) == '"') = false := by decide
        simp [this]
      show removeEscQuotes (c :: '\\' :: '"' :: []) = [c]
      rw [removeEscQuotes, if_neg (by simp [hc])]
      rfl
    | cons d ds =>
      have hd : d ≠ '"' := by
        intro e
        exact h (by rw [e]; exact List.mem_cons_of_mem c (List.mem_cons_self '"' ds))
      have hcond : (c == '\\' && d == '"') = false := by
        have : (d == '"') = false := beq_eq_false_iff_ne.mpr hd
        simp [this]
      have htl : ('"' : Char) ∉ d :: ds := fun e => h (List.mem_cons_of_mem c e)
      show removeEscQuotes (c :: d :: (ds ++ ['\\', '"'])) = c :: d :: ds
      rw [removeEscQuotes, if_neg (by simp [hcond])]
      rw [show d :: (ds ++ ['\\', '"']) = (d :: ds) ++ ['\\', '"'] from rfl]
      rw [ih htl]

theorem scanFilesF_nil (p : List Char) (f : Nat) : scanFilesF p f [] = [] := by
  cases f <;> rfl

/-- C7 counterexample: the claim says the escaping quotes around the matched
path segment are removed from the output.  The code strips them from the
capture but re-adds them around the rewritten path
(src/memedeck/src/proxy.rs:54-55): on input `\"/a.css\"` with prefix `p`
the output is `\"/p/a.css\"` — prefixed, with the escaped quotes intact. -/
theorem c7_escaped_quotes_not_removed :
    replaceFiles "\\\"/a.css\\\"" "p" = "\\\"/p/a.css\\\"" ∧
    containsSub "\\\"".data ("\\\"/p/a.css\\\"" : String).data = true ∧
    ("\\\"/p/a.css\\\"" : String) ≠ "/p/a.css" := by
  decide

theorem matchFiles_some_shape : ∀ {l cap tail : List Char},
    matchFiles l = some (cap, tail) →
      (∃ rest, l = '\\' :: '"' :: '/' :: rest) ∧ tail.length < l.length := by
  intro l cap tail h
  rw [matchFiles.eq_def] at h
  split at h
  next rest =>
    refine ⟨⟨rest, rfl⟩, ?_⟩
    split at h
    next tail' heq =>
      split at h
      next =>
        have h2 : tail' = tail := congrArg Prod.snd (Option.some.inj h)
        have h2l : tail'.length = tail.length := by rw [h2]
        have hlen := congrArg List.length heq
        have hd : (rest.dropWhile (fun c => c != '"')).length ≤ rest.length :=
          (List.dropWhile_suffix _).length_le
        simp only [List.length_cons] at hlen h2l ⊢
        omega
      next => cases h
    next => cases h
  next => cases h

/-- The match at the head of the input requires a `"` as second character. -/
theorem matchFiles_none_snd (c : Char) (cs : List Char) (h : cs.head? ≠ some '"') :
    matchFiles (c :: cs) = none := by
  rcases hm : matchFiles (c :: cs) with _ | ⟨cap, tail⟩
  · rfl
  · obtain ⟨⟨rest, hrest⟩, _⟩ := matchFiles_some_shape hm
    have htl : cs = '"' :: '/' :: rest := by
      have := congrArg List.tail hrest
      simpa using this
    exact absurd (by rw [htl]; rfl) h

/-- The scanner's result does not depend on the fuel, as long as the fuel is
at least the input length. -/
theorem scanFilesF_fuel (p : List Char) :
    ∀ (f1 f2 : Nat) (l : List Char), l.length ≤ f1 → l.length ≤ f2 →
      scanFilesF p f1 l = scanFilesF p f2 l := by
  intro f1
  induction f1 with
  | zero =>
    intro f2 l h1 _
    cases l with
    | nil => rw [scanFilesF_nil, scanFilesF_nil]
    | cons c cs => simp at h1
  | succ f1' ih =>
    intro f2 l h1 h2
    cases l with
    | nil => rw [scanFilesF_nil, scanFilesF_nil]
    | cons c cs =>
      cases f2 with
      | zero => simp at h2
      | succ f2' =>
        rcases hm : matchFiles (c :: cs) with _ | ⟨cap, tail⟩
        · simp only [scanFilesF, hm]
          have hcs1 : cs.length ≤ f1' := by simp only [List.length_cons] at h1; omega
          have hcs2 : cs.length ≤ f2' := by simp only [List.length_cons] at h2; omega
          rw [ih f2' cs hcs1 hcs2]
        · obtain ⟨_, hlt⟩ := matchFiles_some_shape hm
          simp only [scanFilesF, hm]
          simp only [List.length_cons] at h1 h2 hlt
          rw [ih f2' tail (by omega) (by omega)]

/-- The scanner copies a quote-free region verbatim: no match can start
inside it (a match needs a `"` as its second character), so each of its
characters is emitted unchanged and exactly one unit of fuel is spent per
character. -/
theorem scanFilesF_pre (p : List Char) :
    ∀ (pre l2 : List Char) (f : Nat), ('"' : Char) ∉ pre → l2.head? ≠ some '"' →
      scanFilesF p (pre.length + f) (pre ++ l2) = pre ++ scanFilesF p f l2 := by
  intro pre
  induction pre with
  | nil => intro l2 f _ _; simp
  | cons a pre' ih =>
    intro l2 f hpre h2
    have hsnd : (pre' ++ l2).head? ≠ some '"' := by
      cases pre' with
      | nil => simpa using h2
      | cons b pre'' =>
        have hb : b ≠ '"' := by
          intro e
          exact hpre (e ▸ List.mem_cons_of_mem a (List.mem_cons_self b pre''))
        simp only [List.cons_append, List.head?_cons, ne_eq, Option.some.injEq]
        exact hb
    have hm : matchFiles (a :: (pre' ++ l2)) = none :=
      matchFiles_none_snd a (pre' ++ l2) hsnd
    have hpre' : ('"' : Char) ∉ pre' := fun e => hpre (List.mem_cons_of_mem a e)
    show scanFilesF p ((a :: pre').length + f) ((a :: pre') ++ l2) = _
    simp only [List.length_cons, List.cons_append]
    rw [show pre'.length + 1 + f = (pre'.length + f) + 1 by omega]
    simp only [scanFilesF, hm]
    rw [ih l2 f hpre' h2]

/-- C7 (amended): for every inline-script text input and prefix p, each
embedded escaped-quoted root-relative path with one of the recognised
extensions is rewritten so the path is prefixed with `/{p}`, and the
escaping quotes around the path segment are preserved in the output (they
are stripped from the capture and re-added around the rewritten path).
The input is decomposed as the quote-free text `pre` before the occurrence,
the occurrence itself, and an arbitrary remainder `rest`: the occurrence is
rewritten in place with its quotes kept, and the remainder is rewritten
recursively — applying the theorem repeatedly covers every occurrence in the
input. -/
theorem c7_inline_script_path_rewrite (p path pre rest : String)
    (h0 : path.data.head? = some '/') (h1 : ('"' : Char) ∉ path.data)
    (h2 : hasDotExt path.data = true) (hpre : ('"' : Char) ∉ pre.data) :
    replaceFiles (pre ++ "\\\"" ++ path ++ "\\\"" ++ rest) p =
      pre ++ "\\\"/" ++ p ++ path ++ "\\\"" ++ replaceFiles rest p := by
  obtain ⟨ps, hps⟩ : ∃ ps, path.data = '/' :: ps := by
    cases hd : path.data with
    | nil => rw [hd] at h0; cases h0
    | cons a l =>
      rw [hd] at h0
      simp only [List.head?_cons, Option.some.injEq] at h0
      exact ⟨l, by rw [h0]⟩
  have hdata : (pre ++ "\\\"" ++ path ++ "\\\"" ++ rest).data =
      pre.data ++ ('\\' :: '"' :: '/' :: (ps ++ ['\\', '"'] ++ rest.data)) := by
    rw [data_append, data_append, data_append, data_append, hps]
    simp
  have hps1 : ∀ c ∈ ps ++ ['\\'], (c != '"') = true := by
    intro c hc
    rcases List.mem_append.mp hc with hc | hc
    · have : c ≠ '"' := by
        intro e
        apply h1
        rw [hps]
        exact List.mem_cons_of_mem _ (e ▸ hc)
      exact bne_iff_ne.mpr this
    · have : c = '\\' := List.mem_singleton.mp hc
      rw [this]; decide
  have hsplit : (ps ++ ['\\', '"'] ++ rest.data : List Char) =
      (ps ++ ['\\']) ++ ('"' :: rest.data) := by simp
  have htk : (ps ++ ['\\', '"'] ++ rest.data).takeWhile (fun c => c != '"') =
      ps ++ ['\\'] := by
    rw [hsplit, takeWhile_all_append _ _ _ hps1]
    simp
  have hdw : (ps ++ ['\\', '"'] ++ rest.data).dropWhile (fun c => c != '"') =
      '"' :: rest.data := by
    rw [hsplit, dropWhile_all_append _ _ _ hps1]
    simp [List.dropWhile_cons]
  have hlast : (ps ++ ['\\'] : List Char).getLast? = some '\\' := List.getLast?_concat ps
  have hde : hasDotExt (ps ++ ['\\']) = true := by
    apply hasDotExt_append
    rw [hps] at h2
    simp only [hasDotExt, Bool.or_eq_true, Bool.and_eq_true] at h2
    rcases h2 with ⟨e, _⟩ | h2
    · exact absurd e (by decide)
    · exact h2
  have hmatch : matchFiles ('\\' :: '"' :: '/' :: (ps ++ ['\\', '"'] ++ rest.data)) =
      some ('\\' :: '"' :: '/' :: ((ps ++ ['\\']) ++ ['"']), rest.data) := by
    rw [matchFiles, hdw, htk]
    show (if (ps ++ ['\\']).getLast? = some '\\' ∧ hasDotExt (ps ++ ['\\']) = true then
        some ('\\' :: '"' :: '/' :: ((ps ++ ['\\']) ++ ['"']), rest.data)
      else none) = _
    rw [if_pos ⟨hlast, hde⟩]
  have hrem : removeEscQuotes ('\\' :: '"' :: '/' :: ((ps ++ ['\\']) ++ ['"'])) = '/' :: ps := by
    rw [removeEscQuotes, if_pos (by decide)]
    rw [show ('/' :: ((ps ++ ['\\']) ++ ['"']) : List Char) = ('/' :: ps) ++ ['\\', '"'] by simp]
    apply removeEsc_append
    intro hmem
    rcases List.mem_cons.mp hmem with e | e
    · exact absurd e (by decide)
    · exact h1 (by rw [hps]; exact List.mem_cons_of_mem _ e)
  have hstep : scanFilesF p.data ((ps.length + rest.data.length + 4) + 1)
      ('\\' :: '"' :: '/' :: (ps ++ ['\\', '"'] ++ rest.data)) =
      (('\\' :: '"' :: '/' :: (p.data ++ ('/' :: ps))) ++ ['\\', '"']) ++
        scanFilesF p.data (ps.length + rest.data.length + 4) rest.data := by
    rw [scanFilesF, hmatch]
    show (('\\' :: '"' :: '/' :: (p.data ++
        removeEscQuotes ('\\' :: '"' :: '/' :: ((ps ++ ['\\']) ++ ['"'])))) ++ ['\\', '"']) ++
          scanFilesF p.data (ps.length + rest.data.length + 4) rest.data = _
    rw [hrem]
  have hfuel : scanFilesF p.data (ps.length + rest.data.length + 4) rest.data =
      scanFilesF p.data rest.data.length rest.data :=
    scanFilesF_fuel p.data _ _ _ (by omega) (Nat.le_refl _)
  have hlen2 : ('\\' :: '"' :: '/' :: (ps ++ ['\\', '"'] ++ rest.data) : List Char).length =
      (ps.length + rest.data.length + 4) + 1 := by
    simp only [List.length_cons, List.length_append, List.length_nil]
    omega
  have hlendata : (pre.data ++
      ('\\' :: '"' :: '/' :: (ps ++ ['\\', '"'] ++ rest.data))).length =
      pre.data.length + ((ps.length + rest.data.length + 4) + 1) := by
    rw [List.length_append, hlen2]
  apply string_data_eq
  show scanFilesF p.data (pre ++ "\\\"" ++ path ++ "\\\"" ++ rest).data.length
      (pre ++ "\\\"" ++ path ++ "\\\"" ++ rest).data =
      (pre ++ "\\\"/" ++ p ++ path ++ "\\\"" ++ replaceFiles rest p).data
  rw [hdata, hlendata]
  rw [scanFilesF_pre p.data pre.data _ _ hpre (by simp)]
  rw [hstep, hfuel]
  have hrhs : (pre ++ "\\\"/" ++ p ++ path ++ "\\\"" ++ replaceFiles rest p).data =
      pre.data ++ (['\\', '"', '/'] ++ p.data ++ ('/' :: ps) ++ ['\\', '"'] ++
        scanFilesF p.data rest.data.length rest.data) := by
    rw [data_append, data_append, data_append, data_append, data_append, hps]
    have e1 : ("\\\"/" : String).data = ['\\', '"', '/'] := rfl
    have e2 : ("\\\"" : String).data = ['\\', '"'] := rfl
    have e3 : (replaceFiles rest p).data =
        scanFilesF p.data rest.data.length rest.data := rfl
    rw [e1, e2, e3]
    simp
  rw [hrhs]
  simp

/-- Witness for C7: the occurrence `\"/a.css\"` embedded in surrounding
script text is rewritten in place with prefix `p`. -/
theorem c7_inline_script_path_rewrite_witness :
    replaceFiles ("var x = " ++ "\\\"" ++ "/a.css" ++ "\\\"" ++ "; f(x)") "p" =
      "var x = " ++ "\\\"/" ++ "p" ++ "/a.css" ++ "\\\"" ++ replaceFiles "; f(x)" "p" :=
  c7_inline_script_path_rewrite "p" "/a.css" "var x = " "; f(x)"
    (by decide) (by decide) (by decide) (by decide)

theorem matchCss_some : ∀ {l arg tail : List Char}, matchCss l = some (arg, tail) →
    l = 'u' :: 'r' :: 'l' :: '(' :: '/' :: (arg ++ ')' :: tail) ∧ arg ≠ [] := by
  intro l arg tail h
  rw [matchCss.eq_def] at h
  split at h
  next rest =>
    split at h
    next tail' heq =>
      split at h
      next => cases h
      next hne =>
        have hp := Option.some.inj h
        have h1 : rest.takeWhile (fun c => c != ')') = arg := congrArg Prod.fst hp
        have h2 : tail' = tail := congrArg Prod.snd hp
        constructor
        · have hsplit : rest.takeWhile (fun c => c != ')') ++
              rest.dropWhile (fun c => c != ')') = rest :=
            List.takeWhile_append_dropWhile _ rest
          rw [h1, heq, h2] at hsplit
          rw [hsplit]
        · rw [← h1]; exact hne
    next => cases h
  next => cases h

theorem scanCssF_nil (p : List Char) (f : Nat) : scanCssF p f [] = [] := by
  cases f <;> rfl

theorem scanCssF_length_ge (p : List Char) :
    ∀ (f : Nat) (l : List Char), l.length ≤ f → l.length ≤ (scanCssF p f l).length := by
  intro f
  induction f with
  | zero => intro l _; simp [scanCssF]
  | succ f ih =>
    intro l h
    cases l with
    | nil => simp [scanCssF]
    | cons c cs =>
      rcases hm : matchCss (c :: cs) with _ | ⟨arg, tail⟩
      · simp only [scanCssF, hm]
        have hcs : cs.length ≤ f := by
          simp only [List.length_cons] at h; omega
        have := ih cs hcs
        simp only [List.length_cons]
        omega
      · obtain ⟨hl, _⟩ := matchCss_some hm
        have hcl : cs.length + 1 = arg.length + tail.length + 6 := by
          have hh := congrArg List.length hl
          simp only [List.length_cons, List.length_append] at hh
          omega
        have htail : tail.length ≤ f := by
          simp only [List.length_cons] at h
          omega
        have := ih tail htail
        simp only [scanCssF, hm]
        simp only [List.length_append, List.length_cons, List.length_nil]
        have hp5 : ("url(/".data : List Char).length = 5 := by decide
        omega

theorem scanCssF_grow (p : List Char) :
    ∀ (f : Nat) (l : List Char), l.length ≤ f → hasMatchCss l = true →
      l.length < (scanCssF p f l).length := by
  intro f
  induction f with
  | zero =>
    intro l h hm
    cases l with
    | nil => simp [hasMatchCss] at hm
    | cons c cs => simp at h
  | succ f ih =>
    intro l h hm
    cases l with
    | nil => simp [hasMatchCss] at hm
    | cons c cs =>
      rcases hmc : matchCss (c :: cs) with _ | ⟨arg, tail⟩
      · have hm2 : hasMatchCss cs = true := by
          simp only [hasMatchCss, hmc, Option.isSome_none, Bool.false_or] at hm
          exact hm
        have hcs : cs.length ≤ f := by
          simp only [List.length_cons] at h; omega
        have := ih cs hcs hm2
        simp only [scanCssF, hmc, List.length_cons]
        omega
      · obtain ⟨hl, _⟩ := matchCss_some hmc
        have hcl : cs.length + 1 = arg.length + tail.length + 6 := by
          have hh := congrArg List.length hl
          simp only [List.length_cons, List.length_append] at hh
          omega
        have htail : tail.length ≤ f := by
          simp only [List.length_cons] at h
          omega
        have := scanCssF_length_ge p f tail htail
        simp only [scanCssF, hmc]
        simp only [List.length_append, List.length_cons, List.length_nil]
        have hp5 : ("url(/".data : List Char).length = 5 := by decide
        omega

theorem dropWhile_paren_mem : ∀ (l : List Char), (')' : Char) ∈ l →
    ∃ t, l.dropWhile (fun c => c != ')') = ')' :: t := by
  intro l
  induction l with
  | nil => intro h; cases h
  | cons a as ih =>
    intro h
    by_cases ha : a = ')'
    · subst ha
      exact ⟨as, by simp [List.dropWhile_cons]⟩
    · have hb : (a != ')') = true := bne_iff_ne.mpr ha
      rcases List.mem_cons.mp h with h1 | h2
      · exact absurd h1.symm ha
      · obtain ⟨t, ht⟩ := ih h2
        exact ⟨t, by simp only [List.dropWhile_cons, hb, if_true]; exact ht⟩

theorem matchCss_replacement_isSome (p arg rest' : List Char) (hp : p.head? ≠ some ')') :
    (matchCss ('u' :: 'r' :: 'l' :: '(' :: '/' ::
      (p ++ ('/' :: arg) ++ (')' :: rest')))).isSome = true := by
  have hmem : (')' : Char) ∈ p ++ ('/' :: arg) ++ (')' :: rest') := by simp
  obtain ⟨t, ht⟩ := dropWhile_paren_mem _ hmem
  have htw : (p ++ ('/' :: arg) ++ (')' :: rest')).takeWhile (fun c => c != ')') ≠ [] := by
    cases hp' : p with
    | nil =>
      have hsl : (('/' : Char) != ')') = true := by decide
      simp only [hp', List.nil_append, List.cons_append, List.takeWhile_cons, hsl, if_true]
      simp
    | cons q qs =>
      have hq : q ≠ ')' := by
        intro e
        apply hp
        rw [hp', e]
        rfl
      simp only [hp', List.cons_append, List.takeWhile_cons, bne_iff_ne.mpr hq, if_true]
      simp
  rw [matchCss, ht]
  show (if (p ++ ('/' :: arg) ++ (')' :: rest')).takeWhile (fun c => c != ')') = []
      then none
      else some ((p ++ ('/' :: arg) ++ (')' :: rest')).takeWhile (fun c => c != ')'), t)).isSome
        = true
  rw [if_neg htw]
  rfl

theorem scanCssF_preserve (p : List Char) (hp : p.head? ≠ some ')') :
    ∀ (f : Nat) (l : List Char), l.length ≤ f → hasMatchCss l = true →
      hasMatchCss (scanCssF p f l) = true := by
  intro f
  induction f with
  | zero =>
    intro l h hm
    cases l with
    | nil => simp [hasMatchCss] at hm
    | cons c cs => simp at h
  | succ f ih =>
    intro l h hm
    cases l with
    | nil => simp [hasMatchCss] at hm
    | cons c cs =>
      rcases hmc : matchCss (c :: cs) with _ | ⟨arg, tail⟩
      · have hm2 : hasMatchCss cs = true := by
          simp only [hasMatchCss, hmc, Option.isSome_none, Bool.false_or] at hm
          exact hm
        have hcs : cs.length ≤ f := by
          simp only [List.length_cons] at h; omega
        have hrec := ih cs hcs hm2
        simp only [scanCssF, hmc]
        simp only [hasMatchCss, Bool.or_eq_true]
        exact Or.inr hrec
      · simp only [scanCssF, hmc]
        have hshape : ("url(/".data ++ p ++ ('/' :: arg) ++ [')']) ++ scanCssF p f tail =
            'u' :: 'r' :: 'l' :: '(' :: '/' ::
              (p ++ ('/' :: arg) ++ (')' :: scanCssF p f tail)) := by
          show (('u' :: 'r' :: 'l' :: '(' :: '/' :: ([] : List Char)) ++ p ++
            ('/' :: arg) ++ [')']) ++ scanCssF p f tail = _
          simp
        rw [hshape]
        have hsome := matchCss_replacement_isSome p arg (scanCssF p f tail) hp
        simp only [hasMatchCss, Bool.or_eq_true]
        exact Or.inl hsome

/-- C8 counterexample: the claim quantifies over every CSS input containing a
`url(...)` reference with root-relative argument and every non-empty prefix.
With prefix `)` the first pass produces `url(/)/x)`, in which the regex no
longer matches (the character after `url(/` is `)`), so the second pass
returns its input unchanged — not a further-prefixed, different result. -/
theorem c8_idempotent_at_paren_pfx :
    replaceUrlsCss (replaceUrlsCss "url(/x)" ")") ")" = replaceUrlsCss "url(/x)" ")" ∧
    replaceUrlsCss "url(/x)" ")" = "url(/)/x)" := by
  decide

/-- C8 (amended): for every CSS input in which the `url(` regex matches (a
`url(` + `/` + at least one non-parenthesis character + `)` reference) and
every non-empty prefix that does not start with `)`, re-running the rewriter
on its own output yields a strictly longer, hence different,
further-prefixed result. -/
theorem c8_second_pass_further_prefixes (s p : String)
    (h1 : hasMatchCss s.data = true) (h2 : p ≠ "") (h3 : p.data.head? ≠ some ')') :
    (replaceUrlsCss s p).length < (replaceUrlsCss (replaceUrlsCss s p) p).length ∧
    replaceUrlsCss (replaceUrlsCss s p) p ≠ replaceUrlsCss s p := by
  have hm : hasMatchCss (scanCssF p.data s.data.length s.data) = true :=
    scanCssF_preserve p.data h3 s.data.length s.data (Nat.le_refl _) h1
  have hlt : (scanCssF p.data s.data.length s.data).length <
      (scanCssF p.data (scanCssF p.data s.data.length s.data).length
        (scanCssF p.data s.data.length s.data)).length :=
    scanCssF_grow p.data _ _ (Nat.le_refl _) hm
  constructor
  · exact hlt
  · intro he
    have hd : (replaceUrlsCss (replaceUrlsCss s p) p).data.length =
        (replaceUrlsCss s p).data.length := by rw [he]
    exact absurd hd (by exact Nat.ne_of_gt hlt)

/-- Witness for C8: `url(/x)` with prefix `p` — the second pass produces a
different, longer output (`url(/p/p/x)`). -/
theorem c8_second_pass_further_prefixes_witness :
    hasMatchCss ("url(/x)" : String).data = true ∧ ("p" : String) ≠ "" ∧
    ("p" : String).data.head? ≠ some ')' ∧
    replaceUrlsCss (replaceUrlsCss "url(/x)" "p") "p" ≠ replaceUrlsCss "url(/x)" "p" :=
  ⟨by decide, by decide, by decide,
    (c8_second_pass_further_prefixes "url(/x)" "p" (by decide) (by decide) (by decide)).2⟩

end Memedeck
